import Mathlib

/-!
Shallow embedding of the ink! smart contract `vesting_vault` (file
`src/vesting_vault/lib.rs` of the repository `crosschainvestingvault`),
together with theorems settling the specification claims about it.

Modelling conventions:
* `AccountId` (a 32-byte `AccountId32`) is modelled as a `Nat` below `2^256`;
  its SCALE encoding is its 32 raw bytes, modelled as 32 little-endian bytes.
* `Balance` (`u128`), `Timestamp` (`u64`, milliseconds) and the `u32` payload
  of `AssetId` are modelled as `Nat`, with machine arithmetic embedded as
  release-mode (wrap-around) arithmetic: every addition/subtraction that the
  Rust source performs on a machine integer is reduced `% 2^w` explicitly.
* `Mapping<AccountId, DepositInfo>` is modelled as an association list with
  distinct keys (distinctness holds on all reachable states and is proved
  where needed).
* A failed Rust `assert!` aborts (and, in ink!, reverts) the call; it is
  modelled by the `CallResult.trap` outcome.  Both `trap` and `err` leave the
  contract state unchanged, exactly as an ink! message that returns an error
  or panics leaves storage unchanged.
* Events emitted by a successful message are returned alongside the new state;
  the value returned to the caller is the `ρ` component (the Rust methods all
  return `Result<(), VestingError>`, so `ρ = Unit`).
-/


/-- `DepositInfo` storage struct of `vesting_vault`. -/
structure DepositInfo where
  amount : Nat
  unlock_timestamp : Nat
  asset_id : Nat
  destination_parachain : Nat
deriving DecidableEq, Repr

/-- `ink::storage::Mapping<AccountId, DepositInfo>`, as an association list. -/
def Mapping := List (Nat × DepositInfo)
deriving DecidableEq, Repr

/-- `Mapping::get`: the value stored under the first matching key. -/
def Mapping.get : Mapping → Nat → Option DepositInfo
  | [], _ => none
  | (k', i) :: rest, k => if k' = k then some i else Mapping.get rest k

/-- `Mapping::insert`: replace the binding for the key, or append a new one. -/
def Mapping.insert : Mapping → Nat → DepositInfo → Mapping
  | [], k, v => [(k, v)]
  | (k', i) :: rest, k, v =>
      if k' = k then (k, v) :: rest else (k', i) :: Mapping.insert rest k v

/-- `Mapping::remove`: drop every binding for the key. -/
def Mapping.remove : Mapping → Nat → Mapping
  | [], _ => []
  | (k', i) :: rest, k =>
      if k' = k then Mapping.remove rest k else (k', i) :: Mapping.remove rest k

/-- Sum of the `amount` fields of all records stored in the mapping. -/
def sumAmounts : Mapping → Nat
  | [] => 0
  | (_, i) :: rest => i.amount + sumAmounts rest

/-- Amount stored under a key (0 when the key is absent). -/
def amountOf (m : Mapping) (k : Nat) : Nat :=
  match Mapping.get m k with
  | some i => i.amount
  | none => 0

/-- Keys of the mapping, in storage order. -/
def Mapping.keys (m : Mapping) : List Nat := m.map Prod.fst

/-- Distinctness of the mapping's keys (holds on every reachable state). -/
def keysNodup (m : Mapping) : Prop := m.keys.Nodup

/-- `pub enum VestingError` of `vesting_vault`. -/
inductive VestingError where
  | InsufficientBalance
  | TokensStillLocked
  | NoDepositFound
  | UnauthorizedAccess
  | AssetNotSupported
  | XCMExecutionFailed
deriving DecidableEq, Repr

/-- The four `#[ink(event)]` structs of `vesting_vault`. -/
inductive Event where
  | Deposited (user : Nat) (amount : Nat) (asset_id : Nat)
      (unlock_time : Nat)
  | ClaimInitiated (user : Nat) (amount : Nat)
      (destination_parachain : Nat) (xcm_hash : List Nat)
  | EmergencyTriggered (timestamp : Nat) (admin : Nat)
  | XCMExecuted (user : Nat) (amount : Nat) (destination : Nat)
      (success : Bool)
deriving DecidableEq, Repr

/-- `#[ink(storage)] pub struct VestingVault`. -/
structure VestingVault where
  deposits : Mapping
  emergency_mode : Bool
  admin : Nat
  total_locked : Nat
  supported_assets : List Nat
deriving DecidableEq, Repr

/-- Outcome of an ink! message call: success (new storage, emitted events,
value returned to the caller), a typed `Err`, or a `trap` (a failed Rust
`assert!`, which aborts and reverts the call). -/
inductive CallResult (ρ : Type) where
  | ok : VestingVault → List Event → ρ → CallResult ρ
  | err : VestingError → CallResult ρ
  | trap : CallResult ρ
deriving DecidableEq

/-- `VestingVault::new(admin)`: empty ledger, emergency off, assets 1 (DOT)
and 2 (USDT) supported. -/
def new (admin : Nat) : VestingVault :=
  { deposits := []
    emergency_mode := false
    admin := admin
    total_locked := 0
    supported_assets := [1, 2] }

/-- Little-endian byte representation (`w` bytes) of a natural number:
models `to_le_bytes` and the 32 raw bytes of an `AccountId32`. -/
def leBytes (n : Nat) : Nat → List Nat
  | 0 => []
  | w + 1 => n % 256 :: leBytes (n / 256) w

/-- `build_xcm_message`: `beneficiary.encode() ++ amount.to_le_bytes() ++
destination_parachain.to_le_bytes() ++ asset_id.0.to_le_bytes()`. -/
def build_xcm_message (beneficiary : Nat) (amount : Nat)
    (destination_parachain : Nat) (asset_id : Nat) : List Nat :=
  leBytes beneficiary 32 ++ leBytes amount 16 ++
    leBytes destination_parachain 4 ++ leBytes asset_id 4

/-- The XOR-fold loop of `calculate_xcm_hash`:
`hash[i % 32] ^= byte` for each indexed byte of the message. -/
def xorFold (hash : List Nat) (i : Nat) : List Nat → List Nat
  | [] => hash
  | b :: rest =>
      xorFold (hash.set (i % 32) (Nat.xor (hash.getD (i % 32) 0) b)) (i + 1) rest

/-- `calculate_xcm_hash`: positional XOR-fold of the message into 32 bytes. -/
def calculate_xcm_hash (message : List Nat) : List Nat :=
  xorFold (List.replicate 32 0) 0 message

/-- `execute_xcm_transfer` (always succeeds in the source): returns the hash
of the built message and emits `XCMExecuted { .., success: true }`. -/
def execute_xcm_transfer (beneficiary : Nat) (amount : Nat)
    (destination_parachain : Nat) (asset_id : Nat) : List Nat × List Event :=
  let xcm_message := build_xcm_message beneficiary amount destination_parachain asset_id
  let xcm_hash := calculate_xcm_hash xcm_message
  (xcm_hash, [Event.XCMExecuted beneficiary amount destination_parachain true])

/-- `deposit_with_asset(asset_id, amount, lock_secs, destination_parachain)`.
`caller` and `current_time` are the environment-supplied caller and block
timestamp.  Mirrors the source order: `unlock_time = current_time + lock_secs`
(wrapping `u64` addition) is computed first, then asset support is checked,
then the two `assert!`s (modelled as `trap`), then the always-`Ok` precompile
transfer, then the insert and the wrapping `u128` accumulation. -/
def deposit_with_asset (s : VestingVault) (caller : Nat)
    (current_time : Nat) (asset_id : Nat) (amount : Nat)
    (lock_secs : Nat) (destination_parachain : Nat) : CallResult Unit :=
  let unlock_time := (current_time + lock_secs) % 2 ^ 64
  if s.supported_assets.contains asset_id = false then
    .err .AssetNotSupported
  else if lock_secs < 60000 then
    .trap
  else if amount = 0 then
    .trap
  else
    let info : DepositInfo :=
      { amount := amount
        unlock_timestamp := unlock_time
        asset_id := asset_id
        destination_parachain := destination_parachain }
    .ok
      { s with
        deposits := s.deposits.insert caller info
        total_locked := (s.total_locked + amount) % 2 ^ 128 }
      [Event.Deposited caller amount asset_id unlock_time]
      ()

/-- `claim_cross_chain()`.  Mirrors the source: look the caller up
(`NoDepositFound` when absent), check the time lock against `emergency_mode`
(`TokensStillLocked`), run the XCM transfer, then decrement `total_locked`
(wrapping `u128` subtraction) and remove the record. -/
def claim_cross_chain (s : VestingVault) (caller : Nat)
    (current_time : Nat) : CallResult Unit :=
  match Mapping.get s.deposits caller with
  | none => .err .NoDepositFound
  | some info =>
      if current_time < info.unlock_timestamp ∧ s.emergency_mode = false then
        .err .TokensStillLocked
      else
        let r := execute_xcm_transfer caller info.amount
          info.destination_parachain info.asset_id
        .ok
          { s with
            total_locked :=
              (s.total_locked + 2 ^ 128 - info.amount % 2 ^ 128) % 2 ^ 128
            deposits := s.deposits.remove caller }
          (r.2 ++ [Event.ClaimInitiated caller info.amount
            info.destination_parachain r.1])
          ()

/-- `emergency_unlock()`: admin-only circuit breaker setting
`emergency_mode = true` and emitting `EmergencyTriggered`. -/
def emergency_unlock (s : VestingVault) (caller : Nat)
    (current_time : Nat) : CallResult Unit :=
  if caller ≠ s.admin then
    .err .UnauthorizedAccess
  else
    .ok { s with emergency_mode := true }
      [Event.EmergencyTriggered current_time s.admin]
      ()

/-- `get_deposit_info(account)`. -/
def get_deposit_info (s : VestingVault) (account : Nat) : Option DepositInfo :=
  Mapping.get s.deposits account

/-- `get_total_locked()`. -/
def get_total_locked (s : VestingVault) : Nat :=
  s.total_locked

/-- `is_emergency_mode()`. -/
def is_emergency_mode (s : VestingVault) : Bool :=
  s.emergency_mode

/-- `get_supported_assets()`. -/
def get_supported_assets (s : VestingVault) : List Nat :=
  s.supported_assets

/-- One invocation of a state-mutating message, with the caller and block
timestamp the environment supplies for it. -/
inductive Op where
  | deposit (caller : Nat) (current_time : Nat) (asset_id : Nat)
      (amount : Nat) (lock_secs : Nat) (destination_parachain : Nat)
  | claim (caller : Nat) (current_time : Nat)
  | emergency (caller : Nat) (current_time : Nat)
deriving DecidableEq, Repr

/-- The environment-supplied caller of an operation. -/
def Op.caller : Op → Nat
  | .deposit c _ _ _ _ _ => c
  | .claim c _ => c
  | .emergency c _ => c

/-- State transition of one call: a successful message installs its new
storage; an `Err` or a trap reverts, leaving storage unchanged. -/
def Op.apply (s : VestingVault) : Op → VestingVault
  | .deposit c t a m l d =>
      match deposit_with_asset s c t a m l d with
      | .ok s' _ _ => s'
      | _ => s
  | .claim c t =>
      match claim_cross_chain s c t with
      | .ok s' _ _ => s'
      | _ => s
  | .emergency c t =>
      match emergency_unlock s c t with
      | .ok s' _ _ => s'
      | _ => s

/-- Run a sequence of calls from a state. -/
def run (s : VestingVault) (ops : List Op) : VestingVault :=
  ops.foldl Op.apply s

/-- Sum of the `amount` arguments of all deposit calls in a sequence
(counting failed ones too, so it bounds every partial accumulation). -/
def depositSum : List Op → Nat
  | [] => 0
  | .deposit _ _ _ m _ _ :: ops => m + depositSum ops
  | _ :: ops => depositSum ops

/-- Holds when no deposit call in the sequence is made by an account that
already holds an active record at the moment of the call. -/
def noOverwrite (s : VestingVault) : List Op → Bool
  | [] => true
  | op :: ops =>
      (match op with
        | .deposit c _ _ _ _ _ => (Mapping.get s.deposits c).isNone
        | _ => true) && noOverwrite (Op.apply s op) ops

/-- Value a call hands back to its caller (`some` on success): for the
vault's messages this is the payload of the Rust `Result<(), VestingError>`. -/
def CallResult.ret {ρ : Type} : CallResult ρ → Option ρ
  | .ok _ _ r => some r
  | _ => none

/-! ### Association-list lemmas for `Mapping` -/

theorem get_insert_self (m : Mapping) (k : Nat) (v : DepositInfo) :
    (m.insert k v).get k = some v := by
  induction m with
  | nil => simp [Mapping.insert, Mapping.get]
  | cons p rest ih =>
    obtain ⟨k', i⟩ := p
    by_cases h : k' = k
    · subst h
      simp [Mapping.insert, Mapping.get]
    · simp [Mapping.insert, Mapping.get, h, ih]

theorem get_insert_ne (m : Mapping) (k b : Nat) (v : DepositInfo)
    (h : k ≠ b) : (m.insert k v).get b = m.get b := by
  induction m with
  | nil => simp [Mapping.insert, Mapping.get, h]
  | cons p rest ih =>
    obtain ⟨k', i⟩ := p
    by_cases hk : k' = k
    · subst hk
      simp [Mapping.insert, Mapping.get, h]
    · by_cases hb : k' = b
      · subst hb
        simp [Mapping.insert, Mapping.get, hk]
      · simp [Mapping.insert, Mapping.get, hk, hb, ih]

theorem get_remove_self (m : Mapping) (k : Nat) :
    (m.remove k).get k = none := by
  induction m with
  | nil => simp [Mapping.remove, Mapping.get]
  | cons p rest ih =>
    obtain ⟨k', i⟩ := p
    by_cases h : k' = k
    · simp [Mapping.remove, h, ih]
    · simp [Mapping.remove, Mapping.get, h, ih]

theorem get_remove_ne (m : Mapping) (k b : Nat) (h : k ≠ b) :
    (m.remove k).get b = m.get b := by
  induction m with
  | nil => simp [Mapping.remove]
  | cons p rest ih =>
    obtain ⟨k', i⟩ := p
    by_cases hk : k' = k
    · subst hk
      simp [Mapping.remove, Mapping.get, h, ih]
    · by_cases hb : k' = b
      · subst hb
        simp [Mapping.remove, Mapping.get, hk]
      · simp [Mapping.remove, Mapping.get, hk, hb, ih]

theorem sumAmounts_insert (m : Mapping) (k : Nat) (v : DepositInfo) :
    sumAmounts (m.insert k v) + amountOf m k = sumAmounts m + v.amount := by
  induction m with
  | nil => simp [Mapping.insert, sumAmounts, amountOf, Mapping.get]
  | cons p rest ih =>
    obtain ⟨k', i⟩ := p
    by_cases h : k' = k
    · subst h
      simp [Mapping.insert, sumAmounts, amountOf, Mapping.get]
      omega
    · simp only [Mapping.insert, if_neg h, sumAmounts, amountOf, Mapping.get,
        if_neg h]
      simp only [amountOf] at ih
      omega

theorem amountOf_le_sumAmounts (m : Mapping) (k : Nat) :
    amountOf m k ≤ sumAmounts m := by
  induction m with
  | nil => simp [amountOf, Mapping.get, sumAmounts]
  | cons p rest ih =>
    obtain ⟨k', i⟩ := p
    by_cases h : k' = k
    · subst h
      simp [amountOf, Mapping.get, sumAmounts]
    · simp only [amountOf, Mapping.get, if_neg h, sumAmounts]
      simp only [amountOf] at ih
      omega

theorem mem_keys_insert (m : Mapping) (k b : Nat) (v : DepositInfo)
    (h : b ∈ (m.insert k v).keys) : b = k ∨ b ∈ m.keys := by
  induction m with
  | nil => simpa [Mapping.insert, Mapping.keys] using h
  | cons p rest ih =>
    obtain ⟨k', i⟩ := p
    by_cases hk : k' = k
    · subst hk
      simpa [Mapping.insert, Mapping.keys] using h
    · simp only [Mapping.insert, if_neg hk, Mapping.keys, List.map_cons,
        List.mem_cons] at h ⊢
      rcases h with h | h
      · exact Or.inr (Or.inl h)
      · rcases ih h with h' | h'
        · exact Or.inl h'
        · exact Or.inr (Or.inr h')

theorem keysNodup_insert (m : Mapping) (k : Nat) (v : DepositInfo)
    (h : keysNodup m) : keysNodup (m.insert k v) := by
  induction m with
  | nil => simp [Mapping.insert, keysNodup, Mapping.keys]
  | cons p rest ih =>
    obtain ⟨k', i⟩ := p
    simp only [keysNodup, Mapping.keys, List.map_cons, List.nodup_cons] at h
    by_cases hk : k' = k
    · subst hk
      simp only [Mapping.insert, if_pos rfl, keysNodup, Mapping.keys]
      simp only [List.map_cons, List.map, List.nodup_cons, if_true, ite_true]
      exact h
    · simp only [Mapping.insert, if_neg hk, keysNodup, Mapping.keys,
        List.map_cons, List.nodup_cons]
      refine ⟨fun hmem => ?_, ih h.2⟩
      rcases mem_keys_insert rest k k' v hmem with h' | h'
      · exact hk h'
      · exact h.1 h'

theorem mem_keys_remove (m : Mapping) (k b : Nat)
    (h : b ∈ (m.remove k).keys) : b ∈ m.keys := by
  induction m with
  | nil => simpa [Mapping.remove] using h
  | cons p rest ih =>
    obtain ⟨k', i⟩ := p
    by_cases hk : k' = k
    · simp only [Mapping.remove, if_pos hk] at h
      simp only [Mapping.keys, List.map_cons, List.mem_cons]
      exact Or.inr (ih h)
    · simp only [Mapping.remove, if_neg hk, Mapping.keys, List.map_cons,
        List.mem_cons] at h ⊢
      rcases h with h | h
      · exact Or.inl h
      · exact Or.inr (ih h)

theorem keysNodup_remove (m : Mapping) (k : Nat) (h : keysNodup m) :
    keysNodup (m.remove k) := by
  induction m with
  | nil => simpa [Mapping.remove] using h
  | cons p rest ih =>
    obtain ⟨k', i⟩ := p
    simp only [keysNodup, Mapping.keys, List.map_cons, List.nodup_cons] at h
    by_cases hk : k' = k
    · simp only [Mapping.remove, if_pos hk]
      exact ih h.2
    · simp only [Mapping.remove, if_neg hk, keysNodup, Mapping.keys,
        List.map_cons, List.nodup_cons]
      refine ⟨fun hmem => h.1 (mem_keys_remove rest k k' hmem), ih h.2⟩

theorem get_none_of_not_mem_keys (m : Mapping) (k : Nat)
    (h : k ∉ m.keys) : m.get k = none := by
  induction m with
  | nil => simp [Mapping.get]
  | cons p rest ih =>
    obtain ⟨k', i⟩ := p
    simp only [Mapping.keys, List.map_cons, List.mem_cons, not_or] at h
    have : k' ≠ k := fun hh => h.1 hh.symm
    simp [Mapping.get, this, ih h.2]

theorem remove_of_not_mem_keys (m : Mapping) (k : Nat)
    (h : k ∉ m.keys) : m.remove k = m := by
  induction m with
  | nil => simp [Mapping.remove]
  | cons p rest ih =>
    obtain ⟨k', i⟩ := p
    simp only [Mapping.keys, List.map_cons, List.mem_cons, not_or] at h
    have : k' ≠ k := fun hh => h.1 hh.symm
    simp [Mapping.remove, this, ih h.2]

theorem sumAmounts_remove (m : Mapping) (k : Nat) (h : keysNodup m) :
    sumAmounts (m.remove k) + amountOf m k = sumAmounts m := by
  induction m with
  | nil => simp [Mapping.remove, sumAmounts, amountOf, Mapping.get]
  | cons p rest ih =>
    obtain ⟨k', i⟩ := p
    simp only [keysNodup, Mapping.keys, List.map_cons, List.nodup_cons] at h
    by_cases hk : k' = k
    · subst hk
      simp [Mapping.remove, amountOf, Mapping.get, sumAmounts,
        remove_of_not_mem_keys rest k' h.1]
      omega
    · simp only [Mapping.remove, if_neg hk, sumAmounts, amountOf, Mapping.get,
        if_neg hk]
      have := ih h.2
      simp only [amountOf] at this
      omega

/-! ### The XOR-fold digest is always 32 bytes -/

theorem xorFold_length (msg : List Nat) : ∀ (hash : List Nat) (i : Nat),
    (xorFold hash i msg).length = hash.length := by
  induction msg with
  | nil => intro hash i; simp [xorFold]
  | cons b rest ih => intro hash i; simp [xorFold, ih]

theorem calculate_xcm_hash_length (msg : List Nat) :
    (calculate_xcm_hash msg).length = 32 := by
  simp [calculate_xcm_hash, xorFold_length]

/-! ### Success-case characterizations of the three messages -/

theorem deposit_ok {s : VestingVault} {c t a m l d : Nat} {s' : VestingVault}
    {evs : List Event} {r : Unit}
    (h : deposit_with_asset s c t a m l d = .ok s' evs r) :
    s' = { s with
            deposits := s.deposits.insert c ⟨m, (t + l) % 2 ^ 64, a, d⟩
            total_locked := (s.total_locked + m) % 2 ^ 128 } ∧
    evs = [Event.Deposited c m a ((t + l) % 2 ^ 64)] ∧
    s.supported_assets.contains a = true ∧ 60000 ≤ l ∧ 0 < m := by
  simp only [deposit_with_asset] at h
  by_cases hc : s.supported_assets.contains a = false
  · rw [if_pos hc] at h; injection h
  · rw [if_neg hc] at h
    by_cases hl : l < 60000
    · rw [if_pos hl] at h; injection h
    · rw [if_neg hl] at h
      by_cases hm : m = 0
      · rw [if_pos hm] at h; injection h
      · rw [if_neg hm] at h
        injection h with h1 h2 h3
        exact ⟨h1.symm, h2.symm, by simpa using hc, by omega, by omega⟩

theorem claim_ok {s : VestingVault} {c t : Nat} {s' : VestingVault}
    {evs : List Event} {r : Unit}
    (h : claim_cross_chain s c t = .ok s' evs r) :
    ∃ info, Mapping.get s.deposits c = some info ∧
      ¬(t < info.unlock_timestamp ∧ s.emergency_mode = false) ∧
      s' = { s with
              total_locked :=
                (s.total_locked + 2 ^ 128 - info.amount % 2 ^ 128) % 2 ^ 128
              deposits := s.deposits.remove c } ∧
      evs = [Event.XCMExecuted c info.amount info.destination_parachain true,
             Event.ClaimInitiated c info.amount info.destination_parachain
               (calculate_xcm_hash (build_xcm_message c info.amount
                 info.destination_parachain info.asset_id))] := by
  cases hg : Mapping.get s.deposits c with
  | none =>
    simp only [claim_cross_chain, hg] at h
    injection h
  | some info =>
    simp only [claim_cross_chain, hg] at h
    by_cases hcond : t < info.unlock_timestamp ∧ s.emergency_mode = false
    · rw [if_pos hcond] at h; injection h
    · rw [if_neg hcond] at h
      injection h with h1 h2 h3
      refine ⟨info, rfl, hcond, h1.symm, ?_⟩
      simpa [execute_xcm_transfer] using h2.symm

theorem claim_eq_ok {s : VestingVault} {c t : Nat} {info : DepositInfo}
    (hget : Mapping.get s.deposits c = some info)
    (hcond : ¬(t < info.unlock_timestamp ∧ s.emergency_mode = false)) :
    claim_cross_chain s c t =
      .ok { s with
             total_locked :=
               (s.total_locked + 2 ^ 128 - info.amount % 2 ^ 128) % 2 ^ 128
             deposits := s.deposits.remove c }
        [Event.XCMExecuted c info.amount info.destination_parachain true,
         Event.ClaimInitiated c info.amount info.destination_parachain
           (calculate_xcm_hash (build_xcm_message c info.amount
             info.destination_parachain info.asset_id))]
        () := by
  simp only [claim_cross_chain, hget]
  rw [if_neg hcond]
  simp [execute_xcm_transfer]

theorem claim_locked_err {s : VestingVault} {c t : Nat} {info : DepositInfo}
    (hget : Mapping.get s.deposits c = some info)
    (hlock : t < info.unlock_timestamp) (hem : s.emergency_mode = false) :
    claim_cross_chain s c t = .err .TokensStillLocked := by
  simp only [claim_cross_chain, hget]
  simp [hlock, hem]

theorem emergency_ok {s : VestingVault} {c t : Nat} {s' : VestingVault}
    {evs : List Event} {r : Unit}
    (h : emergency_unlock s c t = .ok s' evs r) :
    c = s.admin ∧ s' = { s with emergency_mode := true } ∧
    evs = [Event.EmergencyTriggered t s.admin] := by
  unfold emergency_unlock at h
  split at h
  next => injection h
  next hc =>
    injection h with h1 h2 h3
    exact ⟨not_not.mp hc, h1.symm, h2.symm⟩

/-! ### Wrap-around arithmetic helpers -/

theorem wrap_sub_eq (B total amt : Nat) (h1 : amt ≤ total) (h2 : total < B) :
    (total + B - amt % B) % B = total - amt := by
  have hm : amt % B = amt := Nat.mod_eq_of_lt (lt_of_le_of_lt h1 h2)
  rw [hm]
  have h3 : total + B - amt = total - amt + B := by omega
  rw [h3, Nat.add_mod_right]
  exact Nat.mod_eq_of_lt (by omega)

/-! ### Ledger/aggregate invariants along runs -/

theorem apply_inv (s : VestingVault) (op : Op)
    (hnd : keysNodup s.deposits)
    (hle : sumAmounts s.deposits ≤ s.total_locked)
    (hb : s.total_locked + depositSum [op] < 2 ^ 128) :
    keysNodup (Op.apply s op).deposits ∧
    sumAmounts (Op.apply s op).deposits ≤ (Op.apply s op).total_locked ∧
    (Op.apply s op).total_locked ≤ s.total_locked + depositSum [op] := by
  cases op with
  | deposit c t a m l d =>
    have hds : depositSum [Op.deposit c t a m l d] = m + 0 := rfl
    rw [hds] at hb ⊢
    cases hd : deposit_with_asset s c t a m l d with
    | ok s' evs r =>
      obtain ⟨hs', hevs, hca, hl, hm⟩ := deposit_ok hd
      simp only [Op.apply, hd]
      subst hs'
      have hins : sumAmounts (s.deposits.insert c ⟨m, (t + l) % 2 ^ 64, a, d⟩)
          + amountOf s.deposits c = sumAmounts s.deposits + m := by
        simpa using sumAmounts_insert s.deposits c ⟨m, (t + l) % 2 ^ 64, a, d⟩
      have hmod : (s.total_locked + m) % 2 ^ 128 = s.total_locked + m :=
        Nat.mod_eq_of_lt (by omega)
      refine ⟨keysNodup_insert _ _ _ hnd, ?_, ?_⟩
      · simp only [hmod]
        omega
      · simp only [hmod]
        omega
    | err e => simp only [Op.apply, hd]; exact ⟨hnd, hle, by omega⟩
    | trap => simp only [Op.apply, hd]; exact ⟨hnd, hle, by omega⟩
  | claim c t =>
    have hds : depositSum [Op.claim c t] = 0 := rfl
    rw [hds] at hb ⊢
    cases hd : claim_cross_chain s c t with
    | ok s' evs r =>
      obtain ⟨info, hget, hcond, hs', hevs⟩ := claim_ok hd
      simp only [Op.apply, hd]
      subst hs'
      have hamt : amountOf s.deposits c = info.amount := by
        simp [amountOf, hget]
      have h1 : amountOf s.deposits c ≤ sumAmounts s.deposits :=
        amountOf_le_sumAmounts _ _
      have h2 : sumAmounts (s.deposits.remove c) + amountOf s.deposits c
          = sumAmounts s.deposits := sumAmounts_remove _ _ hnd
      have hsub : (s.total_locked + 2 ^ 128 - info.amount % 2 ^ 128) % 2 ^ 128
          = s.total_locked - info.amount :=
        wrap_sub_eq _ _ _ (by omega) (by omega)
      refine ⟨keysNodup_remove _ _ hnd, ?_, ?_⟩
      · simp only [hsub]
        omega
      · simp only [hsub]
        omega
    | err e => simp only [Op.apply, hd]; exact ⟨hnd, hle, by omega⟩
    | trap => simp only [Op.apply, hd]; exact ⟨hnd, hle, by omega⟩
  | emergency c t =>
    have hds : depositSum [Op.emergency c t] = 0 := rfl
    rw [hds] at hb ⊢
    cases hd : emergency_unlock s c t with
    | ok s' evs r =>
      obtain ⟨hc, hs', hevs⟩ := emergency_ok hd
      simp only [Op.apply, hd]
      subst hs'
      exact ⟨hnd, hle, by simp⟩
    | err e => simp only [Op.apply, hd]; exact ⟨hnd, hle, by omega⟩
    | trap => simp only [Op.apply, hd]; exact ⟨hnd, hle, by omega⟩

theorem depositSum_cons (op : Op) (ops : List Op) :
    depositSum (op :: ops) = depositSum [op] + depositSum ops := by
  cases op with
  | deposit c t a m l d => rfl
  | claim c t => exact (Nat.zero_add _).symm
  | emergency c t => exact (Nat.zero_add _).symm

theorem run_inv (ops : List Op) : ∀ s : VestingVault,
    keysNodup s.deposits →
    sumAmounts s.deposits ≤ s.total_locked →
    s.total_locked + depositSum ops < 2 ^ 128 →
    keysNodup (run s ops).deposits ∧
    sumAmounts (run s ops).deposits ≤ (run s ops).total_locked ∧
    (run s ops).total_locked ≤ s.total_locked + depositSum ops := by
  induction ops with
  | nil => intro s h1 h2 h3; simpa [run, depositSum] using ⟨h1, h2⟩
  | cons op ops ih =>
    intro s h1 h2 h3
    rw [depositSum_cons] at h3
    have hstep := apply_inv s op h1 h2 (by omega)
    have hrest := ih (Op.apply s op) hstep.1 hstep.2.1 (by omega)
    have hrun : run s (op :: ops) = run (Op.apply s op) ops := by
      simp [run, List.foldl]
    rw [hrun, depositSum_cons]
    exact ⟨hrest.1, hrest.2.1, by omega⟩

theorem apply_exact (s : VestingVault) (op : Op)
    (hnd : keysNodup s.deposits)
    (heq : sumAmounts s.deposits = s.total_locked)
    (hno : (match op with
            | Op.deposit c _ _ _ _ _ => (Mapping.get s.deposits c).isNone
            | _ => true) = true)
    (hb : s.total_locked + depositSum [op] < 2 ^ 128) :
    keysNodup (Op.apply s op).deposits ∧
    sumAmounts (Op.apply s op).deposits = (Op.apply s op).total_locked ∧
    (Op.apply s op).total_locked ≤ s.total_locked + depositSum [op] := by
  cases op with
  | deposit c t a m l d =>
    have hds : depositSum [Op.deposit c t a m l d] = m + 0 := rfl
    rw [hds] at hb ⊢
    have hget : Mapping.get s.deposits c = none :=
      Option.isNone_iff_eq_none.mp hno
    cases hd : deposit_with_asset s c t a m l d with
    | ok s' evs r =>
      obtain ⟨hs', hevs, hca, hl, hm⟩ := deposit_ok hd
      simp only [Op.apply, hd]
      subst hs'
      have hins : sumAmounts (s.deposits.insert c ⟨m, (t + l) % 2 ^ 64, a, d⟩)
          + amountOf s.deposits c = sumAmounts s.deposits + m := by
        simpa using sumAmounts_insert s.deposits c ⟨m, (t + l) % 2 ^ 64, a, d⟩
      have hzero : amountOf s.deposits c = 0 := by
        simp [amountOf, hget]
      have hmod : (s.total_locked + m) % 2 ^ 128 = s.total_locked + m :=
        Nat.mod_eq_of_lt (by omega)
      refine ⟨keysNodup_insert _ _ _ hnd, ?_, ?_⟩
      · simp only [hmod]
        omega
      · simp only [hmod]
        omega
    | err e => simp only [Op.apply, hd]; exact ⟨hnd, heq, by omega⟩
    | trap => simp only [Op.apply, hd]; exact ⟨hnd, heq, by omega⟩
  | claim c t =>
    have hds : depositSum [Op.claim c t] = 0 := rfl
    rw [hds] at hb ⊢
    cases hd : claim_cross_chain s c t with
    | ok s' evs r =>
      obtain ⟨info, hget, hcond, hs', hevs⟩ := claim_ok hd
      simp only [Op.apply, hd]
      subst hs'
      have hamt : amountOf s.deposits c = info.amount := by
        simp [amountOf, hget]
      have h1 : amountOf s.deposits c ≤ sumAmounts s.deposits :=
        amountOf_le_sumAmounts _ _
      have h2 : sumAmounts (s.deposits.remove c) + amountOf s.deposits c
          = sumAmounts s.deposits := sumAmounts_remove _ _ hnd
      have hsub : (s.total_locked + 2 ^ 128 - info.amount % 2 ^ 128) % 2 ^ 128
          = s.total_locked - info.amount :=
        wrap_sub_eq _ _ _ (by omega) (by omega)
      refine ⟨keysNodup_remove _ _ hnd, ?_, ?_⟩
      · simp only [hsub]
        omega
      · simp only [hsub]
        omega
    | err e => simp only [Op.apply, hd]; exact ⟨hnd, heq, by omega⟩
    | trap => simp only [Op.apply, hd]; exact ⟨hnd, heq, by omega⟩
  | emergency c t =>
    have hds : depositSum [Op.emergency c t] = 0 := rfl
    rw [hds] at hb ⊢
    cases hd : emergency_unlock s c t with
    | ok s' evs r =>
      obtain ⟨hc, hs', hevs⟩ := emergency_ok hd
      simp only [Op.apply, hd]
      subst hs'
      exact ⟨hnd, by simpa using heq, by simp⟩
    | err e => simp only [Op.apply, hd]; exact ⟨hnd, heq, by omega⟩
    | trap => simp only [Op.apply, hd]; exact ⟨hnd, heq, by omega⟩

theorem run_exact (ops : List Op) : ∀ s : VestingVault,
    keysNodup s.deposits →
    sumAmounts s.deposits = s.total_locked →
    noOverwrite s ops = true →
    s.total_locked + depositSum ops < 2 ^ 128 →
    keysNodup (run s ops).deposits ∧
    sumAmounts (run s ops).deposits = (run s ops).total_locked ∧
    (run s ops).total_locked ≤ s.total_locked + depositSum ops := by
  induction ops with
  | nil => intro s h1 h2 _ _; simpa [run, depositSum] using ⟨h1, h2⟩
  | cons op ops ih =>
    intro s h1 h2 hno h3
    rw [depositSum_cons] at h3
    simp only [noOverwrite, Bool.and_eq_true] at hno
    have hstep := apply_exact s op h1 h2 hno.1 (by omega)
    have hrest := ih (Op.apply s op) hstep.1 hstep.2.1 hno.2 (by omega)
    have hrun : run s (op :: ops) = run (Op.apply s op) ops := by
      simp [run, List.foldl]
    rw [hrun, depositSum_cons]
    exact ⟨hrest.1, hrest.2.1, by omega⟩

/-! ### Claim theorems -/

/-- C2: for every account, after a successful `claim_cross_chain` by that
account the DepositRecord for that account is absent from `deposits`, and an
immediately retried `claim_cross_chain` by the same account (at any timestamp,
with no intervening deposit) fails with `NoDepositFound` — at-most-once
release. -/
theorem c2_claim_at_most_once (s s' : VestingVault) (caller ct : Nat)
    (evs : List Event) (r : Unit)
    (h : claim_cross_chain s caller ct = .ok s' evs r) :
    get_deposit_info s' caller = none ∧
    ∀ ct2, claim_cross_chain s' caller ct2 = .err .NoDepositFound := by
  obtain ⟨info, hget, hcond, hs', hevs⟩ := claim_ok h
  subst hs'
  have hnone : Mapping.get (s.deposits.remove caller) caller = none :=
    get_remove_self _ _
  refine ⟨by simp [get_deposit_info, hnone], fun ct2 => ?_⟩
  simp [claim_cross_chain, hnone]

/-- Closed witness for C2: the state reached by depositing 1000 of asset 1
for account 2 and claiming it at the unlock time has no record for account 2
and rejects every retried claim with `NoDepositFound`. -/
theorem c2_witness :
    get_deposit_info ⟨[], false, 1, 0, [1, 2]⟩ 2 = none ∧
    ∀ ct2, claim_cross_chain ⟨[], false, 1, 0, [1, 2]⟩ 2 ct2
      = .err .NoDepositFound :=
  c2_claim_at_most_once ⟨[(2, ⟨1000, 60000, 1, 2000⟩)], false, 1, 1000, [1, 2]⟩
    ⟨[], false, 1, 0, [1, 2]⟩ 2 60000
    [Event.XCMExecuted 2 1000 2000 true,
     Event.ClaimInitiated 2 1000 2000
       (calculate_xcm_hash (build_xcm_message 2 1000 2000 1))]
    () (by decide)

/-- C5: a claim made while `current_time < unlock_timestamp` and
`emergency_mode = false` fails with `TokensStillLocked`, and the failed call
leaves the whole vault state (DepositRecord, `total_locked`, everything)
unchanged, so the deposit remains claimable later. -/
theorem c5_locked_claim_fails_no_change (s : VestingVault) (caller ct : Nat)
    (info : DepositInfo)
    (hget : get_deposit_info s caller = some info)
    (hlock : ct < info.unlock_timestamp)
    (hem : s.emergency_mode = false) :
    claim_cross_chain s caller ct = .err .TokensStillLocked ∧
    Op.apply s (.claim caller ct) = s := by
  have h : claim_cross_chain s caller ct = .err .TokensStillLocked :=
    claim_locked_err hget hlock hem
  exact ⟨h, by simp [Op.apply, h]⟩

/-- Closed witness for C5: claiming at time 0 against a record locked until
60000 in a non-emergency vault fails with `TokensStillLocked` and leaves the
state unchanged. -/
theorem c5_witness :
    claim_cross_chain ⟨[(2, ⟨1000, 60000, 1, 2000⟩)], false, 1, 1000, [1, 2]⟩ 2 0
      = .err .TokensStillLocked ∧
    Op.apply ⟨[(2, ⟨1000, 60000, 1, 2000⟩)], false, 1, 1000, [1, 2]⟩ (.claim 2 0)
      = ⟨[(2, ⟨1000, 60000, 1, 2000⟩)], false, 1, 1000, [1, 2]⟩ :=
  c5_locked_claim_fails_no_change _ 2 0 ⟨1000, 60000, 1, 2000⟩
    (by decide) (by decide) (by decide)

/-- C6: `emergency_unlock` by any caller other than the admin fails with
`UnauthorizedAccess` and leaves the state unchanged; by the admin it succeeds,
sets `emergency_mode := true` and emits `EmergencyTriggered`; and when
`emergency_mode` is already `true` the successful call changes no state
(idempotent, though it emits the event again). -/
theorem c6_emergency_unlock_access_control (s : VestingVault) (caller ct : Nat) :
    (caller ≠ s.admin →
      emergency_unlock s caller ct = .err .UnauthorizedAccess ∧
      Op.apply s (.emergency caller ct) = s) ∧
    (caller = s.admin →
      emergency_unlock s caller ct
        = .ok { s with emergency_mode := true }
            [Event.EmergencyTriggered ct s.admin] () ∧
      (s.emergency_mode = true → Op.apply s (.emergency caller ct) = s)) := by
  constructor
  · intro hne
    have h : emergency_unlock s caller ct = .err .UnauthorizedAccess := by
      simp [emergency_unlock, hne]
    exact ⟨h, by simp [Op.apply, h]⟩
  · intro heq
    have h : emergency_unlock s caller ct
        = .ok { s with emergency_mode := true }
            [Event.EmergencyTriggered ct s.admin] () := by
      simp [emergency_unlock, heq]
    refine ⟨h, fun hem => ?_⟩
    have hs : ({ s with emergency_mode := true } : VestingVault) = s := by
      cases s with
      | mk dep em ad tot sup =>
        simp only at hem
        simp [hem]
    simp [Op.apply, h, hs]

/-- Closed witness for C6: a non-admin caller (2) is rejected with no state
change, and the admin (1) calling on an already-emergency vault succeeds with
no state change. -/
theorem c6_witness :
    (emergency_unlock ⟨[], false, 1, 0, [1, 2]⟩ 2 7 = .err .UnauthorizedAccess ∧
     Op.apply ⟨[], false, 1, 0, [1, 2]⟩ (.emergency 2 7) = ⟨[], false, 1, 0, [1, 2]⟩) ∧
    (emergency_unlock ⟨[], true, 1, 0, [1, 2]⟩ 1 7
        = .ok ⟨[], true, 1, 0, [1, 2]⟩ [Event.EmergencyTriggered 7 1] () ∧
     Op.apply ⟨[], true, 1, 0, [1, 2]⟩ (.emergency 1 7) = ⟨[], true, 1, 0, [1, 2]⟩) := by
  constructor
  · exact (c6_emergency_unlock_access_control ⟨[], false, 1, 0, [1, 2]⟩ 2 7).1 (by decide)
  · have h := (c6_emergency_unlock_access_control ⟨[], true, 1, 0, [1, 2]⟩ 1 7).2 rfl
    exact ⟨h.1, h.2 rfl⟩

/-- C7: `emergency_mode` is monotonic — once it is `true`, no operation
(deposit, claim or emergency unlock, successful or not; the read queries are
pure functions of the state and mutate nothing) ever resets it to `false`. -/
theorem c7_emergency_mode_monotonic (s : VestingVault) (op : Op)
    (h : s.emergency_mode = true) :
    (Op.apply s op).emergency_mode = true := by
  cases op with
  | deposit c t a m l d =>
    cases hd : deposit_with_asset s c t a m l d with
    | ok s' evs r =>
      obtain ⟨hs', _, _, _, _⟩ := deposit_ok hd
      simp only [Op.apply, hd]
      rw [hs']
      exact h
    | err e => simpa [Op.apply, hd] using h
    | trap => simpa [Op.apply, hd] using h
  | claim c t =>
    cases hd : claim_cross_chain s c t with
    | ok s' evs r =>
      obtain ⟨info, _, _, hs', _⟩ := claim_ok hd
      simp only [Op.apply, hd]
      rw [hs']
      exact h
    | err e => simpa [Op.apply, hd] using h
    | trap => simpa [Op.apply, hd] using h
  | emergency c t =>
    cases hd : emergency_unlock s c t with
    | ok s' evs r =>
      obtain ⟨_, hs', _⟩ := emergency_ok hd
      simp only [Op.apply, hd]
      rw [hs']
    | err e => simpa [Op.apply, hd] using h
    | trap => simpa [Op.apply, hd] using h

/-- Closed witness for C7: a deposit applied to an emergency-mode vault leaves
`emergency_mode` set. -/
theorem c7_witness :
    (Op.apply ⟨[], true, 1, 0, [1, 2]⟩ (.deposit 2 0 1 5 60000 2000)).emergency_mode
      = true :=
  c7_emergency_mode_monotonic ⟨[], true, 1, 0, [1, 2]⟩ (.deposit 2 0 1 5 60000 2000) rfl

/-- C9: `deposit_with_asset` computes `unlock_time = current_time + lock_secs`
as a wrapping u64 addition before any validation; at
`current_time = 2^64 - 1` with the minimal admissible `lock_secs = 60000` the
stored `unlock_timestamp` wraps to 59999, strictly below `current_time`, and
the deposit is immediately claimable at that very timestamp despite its lock. -/
theorem c9_wraparound_immediate_claim :
    60000 ≤ 60000 ∧
    deposit_with_asset (new 1) 2 (2 ^ 64 - 1) 1 5 60000 2000
      = .ok ⟨[(2, ⟨5, 59999, 1, 2000⟩)], false, 1, 5, [1, 2]⟩
          [Event.Deposited 2 5 1 59999] () ∧
    59999 < 2 ^ 64 - 1 ∧
    claim_cross_chain ⟨[(2, ⟨5, 59999, 1, 2000⟩)], false, 1, 5, [1, 2]⟩ 2 (2 ^ 64 - 1)
      = .ok ⟨[], false, 1, 0, [1, 2]⟩
          [Event.XCMExecuted 2 5 2000 true,
           Event.ClaimInitiated 2 5 2000
             (calculate_xcm_hash (build_xcm_message 2 5 2000 1))]
          () := by
  decide

/-- C3 counterexample: a successful `claim_cross_chain` does not return a
receipt containing the message digest — the Rust method returns
`Result<(), VestingError>`.  Two successful claims over records with distinct
digests hand the caller the very same value `Ok(())`, so the returned value
cannot carry the digest. -/
theorem c3_return_value_carries_no_digest :
    (claim_cross_chain ⟨[(2, ⟨5, 60000, 1, 2000⟩)], false, 1, 5, [1, 2]⟩ 2 60000).ret
      = (claim_cross_chain ⟨[(2, ⟨6, 60000, 1, 2000⟩)], false, 1, 6, [1, 2]⟩ 2 60000).ret ∧
    (claim_cross_chain ⟨[(2, ⟨5, 60000, 1, 2000⟩)], false, 1, 5, [1, 2]⟩ 2 60000).ret
      = some () ∧
    calculate_xcm_hash (build_xcm_message 2 5 2000 1)
      ≠ calculate_xcm_hash (build_xcm_message 2 6 2000 1) := by
  decide

/-- C3 (amended): every successful claim emits a `ClaimInitiated` event whose
`xcm_hash` field is the 32-byte content digest (`calculate_xcm_hash`) of the
cross-chain message built from the claimed DepositRecord; the digest reaches
the caller through the event log, not through the method's return value,
which is `Ok(())`. -/
theorem c3_claim_emits_digest_event (s : VestingVault) (caller ct : Nat)
    (info : DepositInfo)
    (hget : Mapping.get s.deposits caller = some info)
    (hcond : ¬(ct < info.unlock_timestamp ∧ s.emergency_mode = false)) :
    claim_cross_chain s caller ct
      = .ok { s with
               total_locked :=
                 (s.total_locked + 2 ^ 128 - info.amount % 2 ^ 128) % 2 ^ 128
               deposits := s.deposits.remove caller }
          [Event.XCMExecuted caller info.amount info.destination_parachain true,
           Event.ClaimInitiated caller info.amount info.destination_parachain
             (calculate_xcm_hash (build_xcm_message caller info.amount
               info.destination_parachain info.asset_id))] () ∧
    (calculate_xcm_hash (build_xcm_message caller info.amount
        info.destination_parachain info.asset_id)).length = 32 :=
  ⟨claim_eq_ok hget hcond, calculate_xcm_hash_length _⟩

/-- Closed witness for C3: the claim of account 2's record at its unlock time
emits `ClaimInitiated` carrying the 32-byte digest of the built message. -/
theorem c3_witness :
    claim_cross_chain ⟨[(2, ⟨5, 60000, 1, 2000⟩)], false, 1, 5, [1, 2]⟩ 2 60000
      = .ok { (⟨[(2, ⟨5, 60000, 1, 2000⟩)], false, 1, 5, [1, 2]⟩ : VestingVault) with
               total_locked := (5 + 2 ^ 128 - 5 % 2 ^ 128) % 2 ^ 128
               deposits := Mapping.remove [(2, ⟨5, 60000, 1, 2000⟩)] 2 }
          [Event.XCMExecuted 2 5 2000 true,
           Event.ClaimInitiated 2 5 2000
             (calculate_xcm_hash (build_xcm_message 2 5 2000 1))] () ∧
    (calculate_xcm_hash (build_xcm_message 2 5 2000 1)).length = 32 :=
  c3_claim_emits_digest_event ⟨[(2, ⟨5, 60000, 1, 2000⟩)], false, 1, 5, [1, 2]⟩
    2 60000 ⟨5, 60000, 1, 2000⟩ (by decide) (by decide)

/-- C10: frame conditions — a call (successful or failing) by one account to
any message leaves every other account's DepositRecord unchanged, and every
operation leaves `admin` and `supported_assets` unchanged. -/
theorem c10_frame_conditions :
    (∀ (s : VestingVault) (op : Op) (b : Nat),
        Op.caller op ≠ b →
        Mapping.get (Op.apply s op).deposits b = Mapping.get s.deposits b) ∧
    (∀ (s : VestingVault) (op : Op),
        (Op.apply s op).admin = s.admin ∧
        (Op.apply s op).supported_assets = s.supported_assets) := by
  constructor
  · intro s op b hne
    cases op with
    | deposit c t a m l d =>
      simp only [Op.caller] at hne
      cases hd : deposit_with_asset s c t a m l d with
      | ok s' evs r =>
        obtain ⟨hs', _, _, _, _⟩ := deposit_ok hd
        simp only [Op.apply, hd]
        rw [hs']
        exact get_insert_ne _ _ _ _ hne
      | err e => simp [Op.apply, hd]
      | trap => simp [Op.apply, hd]
    | claim c t =>
      simp only [Op.caller] at hne
      cases hd : claim_cross_chain s c t with
      | ok s' evs r =>
        obtain ⟨info, _, _, hs', _⟩ := claim_ok hd
        simp only [Op.apply, hd]
        rw [hs']
        exact get_remove_ne _ _ _ hne
      | err e => simp [Op.apply, hd]
      | trap => simp [Op.apply, hd]
    | emergency c t =>
      cases hd : emergency_unlock s c t with
      | ok s' evs r =>
        obtain ⟨_, hs', _⟩ := emergency_ok hd
        simp only [Op.apply, hd]
        rw [hs']
      | err e => simp [Op.apply, hd]
      | trap => simp [Op.apply, hd]
  · intro s op
    cases op with
    | deposit c t a m l d =>
      cases hd : deposit_with_asset s c t a m l d with
      | ok s' evs r =>
        obtain ⟨hs', _, _, _, _⟩ := deposit_ok hd
        simp only [Op.apply, hd]
        rw [hs']
        exact ⟨rfl, rfl⟩
      | err e => simp [Op.apply, hd]
      | trap => simp [Op.apply, hd]
    | claim c t =>
      cases hd : claim_cross_chain s c t with
      | ok s' evs r =>
        obtain ⟨info, _, _, hs', _⟩ := claim_ok hd
        simp only [Op.apply, hd]
        rw [hs']
        exact ⟨rfl, rfl⟩
      | err e => simp [Op.apply, hd]
      | trap => simp [Op.apply, hd]
    | emergency c t =>
      cases hd : emergency_unlock s c t with
      | ok s' evs r =>
        obtain ⟨_, hs', _⟩ := emergency_ok hd
        simp only [Op.apply, hd]
        rw [hs']
        exact ⟨rfl, rfl⟩
      | err e => simp [Op.apply, hd]
      | trap => simp [Op.apply, hd]

/-- Closed witness for C10: a deposit by account 2 leaves account 3's record,
the admin and the supported assets unchanged. -/
theorem c10_witness :
    Mapping.get (Op.apply ⟨[(3, ⟨7, 90000, 1, 2000⟩)], false, 1, 7, [1, 2]⟩
        (.deposit 2 0 1 5 60000 2000)).deposits 3
      = Mapping.get [(3, ⟨7, 90000, 1, 2000⟩)] 3 ∧
    (Op.apply ⟨[(3, ⟨7, 90000, 1, 2000⟩)], false, 1, 7, [1, 2]⟩
        (.deposit 2 0 1 5 60000 2000)).admin = 1 ∧
    (Op.apply ⟨[(3, ⟨7, 90000, 1, 2000⟩)], false, 1, 7, [1, 2]⟩
        (.deposit 2 0 1 5 60000 2000)).supported_assets = [1, 2] :=
  ⟨c10_frame_conditions.1 ⟨[(3, ⟨7, 90000, 1, 2000⟩)], false, 1, 7, [1, 2]⟩
      (.deposit 2 0 1 5 60000 2000) 3 (by decide),
   (c10_frame_conditions.2 ⟨[(3, ⟨7, 90000, 1, 2000⟩)], false, 1, 7, [1, 2]⟩
      (.deposit 2 0 1 5 60000 2000)).1,
   (c10_frame_conditions.2 ⟨[(3, ⟨7, 90000, 1, 2000⟩)], false, 1, 7, [1, 2]⟩
      (.deposit 2 0 1 5 60000 2000)).2⟩

/-- C1 counterexample: after a second successful deposit by an account that
already holds an active DepositRecord (which silently overwrites the prior
record), `total_locked` (1000 + 500 = 1500) no longer equals the sum of the
stored amounts (500): the overwritten 1000 stay counted in `total_locked`. -/
theorem c1_total_locked_overwrite_counterexample :
    get_total_locked (run (new 1)
      [.deposit 2 0 1 1000 60000 2000, .deposit 2 0 1 500 60000 2000]) = 1500 ∧
    sumAmounts (run (new 1)
      [.deposit 2 0 1 1000 60000 2000, .deposit 2 0 1 500 60000 2000]).deposits
      = 500 := by
  decide

/-- C1 (amended): along any sequence of operations from construction in which
no deposit call is made by an account already holding an active DepositRecord,
and whose cumulative deposited amount stays below `2^128` (so the u128
accumulator never wraps), `total_locked` equals the sum of `amount` over all
stored DepositRecords; the overwriting second deposit of the counterexample
breaks the equality. -/
theorem c1_total_locked_eq_sum_no_overwrite (admin : Nat) (ops : List Op)
    (h1 : noOverwrite (new admin) ops = true)
    (h2 : depositSum ops < 2 ^ 128) :
    get_total_locked (run (new admin) ops)
      = sumAmounts (run (new admin) ops).deposits := by
  have h := run_exact ops (new admin)
    (by simp [new, keysNodup, Mapping.keys])
    (by simp [new, sumAmounts])
    h1
    (by simpa [new] using h2)
  exact h.2.1.symm

/-- Closed witness for C1: a deposit, its claim, and a fresh deposit by the
same account — no overwrite — keep `total_locked` equal to the stored sum. -/
theorem c1_witness :
    get_total_locked (run (new 1)
      [.deposit 2 0 1 1000 60000 2000, .claim 2 60000,
       .deposit 2 70000 1 500 60000 2000])
      = sumAmounts (run (new 1)
          [.deposit 2 0 1 1000 60000 2000, .claim 2 60000,
           .deposit 2 70000 1 500 60000 2000]).deposits :=
  c1_total_locked_eq_sum_no_overwrite 1
    [.deposit 2 0 1 1000 60000 2000, .claim 2 60000,
     .deposit 2 70000 1 500 60000 2000]
    (by decide) (by decide)

/-- C8 counterexample: under the wrapping u128 accumulation, two deposits of
`2^127` make `total_locked` wrap to 0 while a stored record still holds
`2^127`, so `total_locked` is no longer an upper bound of the stored amounts
and the claim-time subtraction wraps: claiming the `2^127` record leaves
`total_locked = 2^127` instead of underflowing to a negative amount. -/
theorem c8_underflow_counterexample :
    Mapping.get (run (new 1) [.deposit 2 0 1 (2 ^ 127) 60000 2000,
        .deposit 3 0 1 (2 ^ 127) 60000 2000]).deposits 3
      = some ⟨2 ^ 127, 60000, 1, 2000⟩ ∧
    get_total_locked (run (new 1) [.deposit 2 0 1 (2 ^ 127) 60000 2000,
        .deposit 3 0 1 (2 ^ 127) 60000 2000]) = 0 ∧
    get_total_locked (run (new 1) [.deposit 2 0 1 (2 ^ 127) 60000 2000,
        .deposit 3 0 1 (2 ^ 127) 60000 2000, .claim 3 60000]) = 2 ^ 127 := by
  decide

/-- C8 (amended): in every state reachable from construction by a sequence of
operations whose cumulative deposited amount stays below `2^128` (so the u128
accumulator never wraps), `total_locked` is at least the `amount` of every
stored DepositRecord, and the wrapping subtraction performed by a successful
`claim_cross_chain` equals the exact subtraction — it never underflows. -/
theorem c8_no_underflow_without_overflow (admin : Nat) (ops : List Op)
    (a : Nat) (info : DepositInfo)
    (hb : depositSum ops < 2 ^ 128)
    (hget : Mapping.get (run (new admin) ops).deposits a = some info) :
    info.amount ≤ (run (new admin) ops).total_locked ∧
    ((run (new admin) ops).total_locked + 2 ^ 128 - info.amount % 2 ^ 128) % 2 ^ 128
      = (run (new admin) ops).total_locked - info.amount := by
  obtain ⟨hnd, hle, hub⟩ := run_inv ops (new admin)
    (by simp [new, keysNodup, Mapping.keys])
    (by simp [new, sumAmounts])
    (by simpa [new] using hb)
  have hamt : amountOf (run (new admin) ops).deposits a = info.amount := by
    simp [amountOf, hget]
  have h1 : amountOf (run (new admin) ops).deposits a
      ≤ sumAmounts (run (new admin) ops).deposits := amountOf_le_sumAmounts _ _
  have hub' : (run (new admin) ops).total_locked ≤ 0 + depositSum ops := hub
  have htot : (run (new admin) ops).total_locked < 2 ^ 128 := by omega
  exact ⟨by omega, wrap_sub_eq _ _ _ (by omega) htot⟩

/-- Closed witness for C8: after a single deposit of 1000, the stored amount
is bounded by `total_locked` and the claim-time subtraction is exact. -/
theorem c8_witness :
    (⟨1000, 60000, 1, 2000⟩ : DepositInfo).amount
      ≤ (run (new 1) [.deposit 2 0 1 1000 60000 2000]).total_locked ∧
    ((run (new 1) [.deposit 2 0 1 1000 60000 2000]).total_locked + 2 ^ 128
        - (⟨1000, 60000, 1, 2000⟩ : DepositInfo).amount % 2 ^ 128) % 2 ^ 128
      = (run (new 1) [.deposit 2 0 1 1000 60000 2000]).total_locked
        - (⟨1000, 60000, 1, 2000⟩ : DepositInfo).amount :=
  c8_no_underflow_without_overflow 1 [.deposit 2 0 1 1000 60000 2000] 2
    ⟨1000, 60000, 1, 2000⟩ (by decide) (by decide)

/-- C4: the spec's reference scenario, in the code's millisecond time unit
(the `lock_secs` parameter and block timestamps are milliseconds, so a
120-second lock is `lock_secs = 120000` and the minimum-lock `assert!`
threshold 60000 is 60 seconds).  From a fresh vault with admin `A`, at any
block time `t0` (with no u64 wrap up to the claim time): depositor `U`'s
deposit of 1000 units of asset 1 locked 120 seconds toward destination chain
2000 succeeds and `get_total_locked` returns 1000; an immediate claim by `U`
fails with `TokensStillLocked`; a claim after advancing time by any
`d ≥ 120` seconds succeeds, after which `get_total_locked` returns 0 and
`get_deposit_info U` is absent. -/
theorem c4_reference_scenario (A U t0 d : Nat)
    (hwrap : t0 + d < 2 ^ 64) (hd : 120000 ≤ d) :
    deposit_with_asset (new A) U t0 1 1000 120000 2000
      = .ok ⟨[(U, ⟨1000, t0 + 120000, 1, 2000⟩)], false, A, 1000, [1, 2]⟩
          [Event.Deposited U 1000 1 (t0 + 120000)] () ∧
    get_total_locked ⟨[(U, ⟨1000, t0 + 120000, 1, 2000⟩)], false, A, 1000, [1, 2]⟩
      = 1000 ∧
    claim_cross_chain ⟨[(U, ⟨1000, t0 + 120000, 1, 2000⟩)], false, A, 1000, [1, 2]⟩ U t0
      = .err .TokensStillLocked ∧
    claim_cross_chain ⟨[(U, ⟨1000, t0 + 120000, 1, 2000⟩)], false, A, 1000, [1, 2]⟩ U (t0 + d)
      = .ok ⟨[], false, A, 0, [1, 2]⟩
          [Event.XCMExecuted U 1000 2000 true,
           Event.ClaimInitiated U 1000 2000
             (calculate_xcm_hash (build_xcm_message U 1000 2000 1))] () ∧
    get_total_locked ⟨[], false, A, 0, [1, 2]⟩ = 0 ∧
    get_deposit_info ⟨[], false, A, 0, [1, 2]⟩ U = none := by
  have hu : (t0 + 120000) % 2 ^ 64 = t0 + 120000 := Nat.mod_eq_of_lt (by omega)
  have hget : Mapping.get [(U, (⟨1000, t0 + 120000, 1, 2000⟩ : DepositInfo))] U
      = some ⟨1000, t0 + 120000, 1, 2000⟩ := by
    simp [Mapping.get]
  refine ⟨?_, rfl, ?_, ?_, rfl, rfl⟩
  · simp only [deposit_with_asset, new, Mapping.insert, hu]
    norm_num
  · have hlt : t0 < t0 + 120000 := by omega
    exact claim_locked_err hget hlt rfl
  · have hnlt : ¬(t0 + d < t0 + 120000) := by omega
    have h := claim_eq_ok
      (s := ⟨[(U, ⟨1000, t0 + 120000, 1, 2000⟩)], false, A, 1000, [1, 2]⟩)
      (c := U) (t := t0 + d) hget (fun hcon => absurd hcon.1 hnlt)
    rw [h]
    norm_num [Mapping.remove]

/-- Closed witness for C4: the scenario at `t0 = 0` with the minimal advance
`d = 120000` ms. -/
theorem c4_witness :
    deposit_with_asset (new 1) 2 0 1 1000 120000 2000
      = .ok ⟨[(2, ⟨1000, 0 + 120000, 1, 2000⟩)], false, 1, 1000, [1, 2]⟩
          [Event.Deposited 2 1000 1 (0 + 120000)] () ∧
    get_total_locked ⟨[(2, ⟨1000, 0 + 120000, 1, 2000⟩)], false, 1, 1000, [1, 2]⟩
      = 1000 ∧
    claim_cross_chain ⟨[(2, ⟨1000, 0 + 120000, 1, 2000⟩)], false, 1, 1000, [1, 2]⟩ 2 0
      = .err .TokensStillLocked ∧
    claim_cross_chain ⟨[(2, ⟨1000, 0 + 120000, 1, 2000⟩)], false, 1, 1000, [1, 2]⟩ 2
        (0 + 120000)
      = .ok ⟨[], false, 1, 0, [1, 2]⟩
          [Event.XCMExecuted 2 1000 2000 true,
           Event.ClaimInitiated 2 1000 2000
             (calculate_xcm_hash (build_xcm_message 2 1000 2000 1))] () ∧
    get_total_locked ⟨[], false, 1, 0, [1, 2]⟩ = 0 ∧
    get_deposit_info ⟨[], false, 1, 0, [1, 2]⟩ 2 = none :=
  c4_reference_scenario 1 2 0 120000 (by decide) (by decide)
